import Mathlib

/-!
Verification of the triplan data pipeline (src/app.js): CSV tokenizer,
header-alias resolution, row normalization, working-set sort, load
error handling, and the geocode cache / rate limiter.

Strings are modelled at the character-list level; JS numbers are
modelled as exact rationals (`ℚ`); the asynchronous geocode call is
modelled as a pure function over an explicit state, entry time, fetch
duration and response, returning the result together with an ordered
trace of its observable effects.
-/

namespace Triplan

/-- JS whitespace as recognized by `String.prototype.trim` and `\s`
(ASCII part plus NBSP, BOM, and the Unicode line separators). -/
def isJsWs (c : Char) : Bool :=
  c = ' ' || c = '\t' || c = '\n' || c = '\r' || c = '\x0b' || c = '\x0c' ||
  c = '\u00A0' || c = '\u2028' || c = '\u2029' || c = '\uFEFF'

/-- Drop leading and trailing JS whitespace (JS `String.prototype.trim`). -/
def trimChars (cs : List Char) : List Char :=
  ((cs.dropWhile isJsWs).reverse.dropWhile isJsWs).reverse

/-- `norm` from src/app.js: `String(s ?? "").trim()` (the argument is
always a string in the modelled call sites). -/
def norm (s : String) : String :=
  ⟨trimChars s.data⟩

/-- One character of JS `toLowerCase`: ASCII letters plus the Latin-1
uppercase letters that occur in headers/aliases. -/
def lowChar (c : Char) : Char :=
  if 'A' ≤ c ∧ c ≤ 'Z' then Char.ofNat (c.toNat + 32)
  else
    match c with
    | 'À' => 'à' | 'Á' => 'á' | 'Â' => 'â' | 'Ã' => 'ã' | 'Ä' => 'ä' | 'Å' => 'å'
    | 'È' => 'è' | 'É' => 'é' | 'Ê' => 'ê' | 'Ë' => 'ë'
    | 'Ì' => 'ì' | 'Í' => 'í' | 'Î' => 'î' | 'Ï' => 'ï'
    | 'Ò' => 'ò' | 'Ó' => 'ó' | 'Ô' => 'ô' | 'Õ' => 'õ' | 'Ö' => 'ö'
    | 'Ù' => 'ù' | 'Ú' => 'ú' | 'Û' => 'û' | 'Ü' => 'ü'
    | 'Ç' => 'ç' | 'Ñ' => 'ñ' | 'Ý' => 'ý'
    | _ => c

/-- `low` from src/app.js: trim then lower-case. -/
def low (s : String) : String :=
  ⟨(trimChars s.data).map lowChar⟩

/-- One character of `stripDiacritics` (NFD decomposition followed by
removal of combining marks U+0300–U+036F), tabulated for the Latin-1
lowercase letters that can reach it; all other characters are left
unchanged, exactly as NFD leaves them. -/
def stripDiacriticChar (c : Char) : Char :=
  match c with
  | 'à' | 'á' | 'â' | 'ã' | 'ä' | 'å' => 'a'
  | 'è' | 'é' | 'ê' | 'ë' => 'e'
  | 'ì' | 'í' | 'î' | 'ï' => 'i'
  | 'ò' | 'ó' | 'ô' | 'õ' | 'ö' => 'o'
  | 'ù' | 'ú' | 'û' | 'ü' => 'u'
  | 'ç' => 'c'
  | 'ñ' => 'n'
  | 'ý' | 'ÿ' => 'y'
  | _ => c

/-- JS `\w`: ASCII alphanumeric or underscore. -/
def isWordChar (c : Char) : Bool :=
  ('a' ≤ c && c ≤ 'z') || ('A' ≤ c && c ≤ 'Z') || ('0' ≤ c && c ≤ '9') || c = '_'

/-- One character of the replacement passes of `keyifyHeader`:
`[_\-]+` → space, then `[^\w\s.]` → space (a later pass collapses
whitespace runs, so per-character replacement is equivalent to the
run-wise regex replacement). -/
def keyifyChar (c : Char) : Char :=
  let c := stripDiacriticChar (lowChar c)
  if c = '_' || c = '-' then ' '
  else if isWordChar c || c = '.' then c
  else if isJsWs c then c
  else ' '

theorem dropWhile_length_le {α : Type} (p : α → Bool) :
    ∀ l : List α, (l.dropWhile p).length ≤ l.length := by
  intro l
  induction l with
  | nil => simp
  | cons a l ih =>
    by_cases h : p a <;> simp [List.dropWhile, h] <;> omega

/-- Worker for `collapseWs`: the flag records whether the previous
character was whitespace (in which case further whitespace of the same
run is dropped). -/
def collapseWsAux : Bool → List Char → List Char
  | _, [] => []
  | prevWs, c :: rest =>
    if isJsWs c then
      if prevWs then collapseWsAux true rest else ' ' :: collapseWsAux true rest
    else c :: collapseWsAux false rest

/-- Replace each maximal run of JS whitespace by a single space
(the `\s+` → `" "` pass). -/
def collapseWs (cs : List Char) : List Char :=
  collapseWsAux false cs

/-- `keyifyHeader` from src/app.js: trim + lower-case, strip
diacritics, `[_\-]+`→space, `[^\w\s.]`→space, collapse whitespace,
trim. -/
def keyifyHeader (s : String) : String :=
  ⟨trimChars (collapseWs ((trimChars s.data).map keyifyChar))⟩

/-- Split a character list at every `'/'` (the shape of JS
`String.prototype.split("/")` restricted to one-character separators). -/
def splitSlash : List Char → List (List Char)
  | [] => [[]]
  | c :: rest =>
    if c = '/' then [] :: splitSlash rest
    else
      match splitSlash rest with
      | g :: gs => (c :: g) :: gs
      | [] => [[c]]

/-- `padStart(2, "0")` on a character list. -/
def pad2 (cs : List Char) : List Char :=
  List.replicate (2 - cs.length) '0' ++ cs

/-- `toISO` from src/app.js: match the trimmed text against
`^(\d{1,2})\/(\d{1,2})\/(\d{4})$` and rebuild `yyyy-mm-dd` with
zero-padded day and month; empty string on no match.  The anchored
regex matches exactly when splitting on `'/'` yields three all-digit
groups of the prescribed lengths. -/
def toISO (s : String) : String :=
  match splitSlash (trimChars s.data) with
  | [d, m, y] =>
    if 1 ≤ d.length ∧ d.length ≤ 2 ∧ d.all Char.isDigit ∧
       1 ≤ m.length ∧ m.length ≤ 2 ∧ m.all Char.isDigit ∧
       y.length = 4 ∧ y.all Char.isDigit then
      ⟨y ++ '-' :: pad2 m ++ '-' :: pad2 d⟩
    else ""
  | _ => ""

/-- The character class kept by `safeNum`'s strip pass
(`[^\d,.\-]` removed): digit, comma, period, or minus — a minus sign
anywhere, not only leading. -/
def numKeep (c : Char) : Bool :=
  c.isDigit || c = ',' || c = '.' || c = '-'

/-- JS `String.prototype.replace(",", ".")`: only the first comma is
replaced. -/
def replaceFirstComma : List Char → List Char
  | [] => []
  | c :: rest => if c = ',' then '.' :: rest else c :: replaceFirstComma rest

/-- The cleaned character list `norm(v).replace(/[^\d,.\-]/g, "").replace(",", ".")`
that `safeNum` hands to `Number`. -/
def numClean (s : String) : List Char :=
  replaceFirstComma ((trimChars s.data).filter numKeep)

/-- Value of a digit list, most significant first. -/
def digitsVal (cs : List Char) : ℕ :=
  cs.foldl (fun a c => a * 10 + (c.toNat - 48)) 0

/-- JS `Number` on an unsigned body drawn from `[0-9.,\-]`:
`D+`, `D+ . D*` or `. D+`; anything else (second sign, second dot,
leftover comma) is NaN, modelled as `none`.  Numeric values are exact
rationals. -/
def jsNumberBody (cs : List Char) : Option ℚ :=
  let intPart := cs.takeWhile Char.isDigit
  let rest := cs.dropWhile Char.isDigit
  match rest with
  | [] => if intPart = [] then none else some (digitsVal intPart)
  | '.' :: frac =>
    if frac.all Char.isDigit ∧ (intPart ≠ [] ∨ frac ≠ []) then
      some ((digitsVal intPart : ℚ) + (digitsVal frac : ℚ) / (10 : ℚ) ^ frac.length)
    else none
  | _ => none

/-- JS `Number` on a string over `[0-9.,\-]`: empty string is `0`,
optional leading minus, then a decimal body; `none` models NaN. -/
def jsNumber (cs : List Char) : Option ℚ :=
  match cs with
  | [] => some 0
  | '-' :: body => (jsNumberBody body).map (fun q => -q)
  | body => jsNumberBody body

/-- `safeNum` from src/app.js: strip `[^\d,.\-]`, replace the first
comma with a period, convert with `Number`, and fall back to `0` when
the result is not finite (NaN). -/
def safeNum (s : String) : ℚ :=
  (jsNumber (numClean s)).getD 0

/-- Modelled from the spec's words for claim C8 (not from the code):
keep a character when it is a digit, comma, period, **or a minus sign
in leading position of the trimmed text**; strip everything else; then
treat the (first) comma as a decimal point and fall back to `0` on a
parse failure. -/
def safeNumSpec (s : String) : ℚ :=
  let t := trimChars s.data
  let kept := (List.range t.length).filterMap (fun i =>
    match t.get? i with
    | some c =>
      if c.isDigit || c = ',' || c = '.' || (c = '-' && i = 0) then some c else none
    | none => none)
  (jsNumber (replaceFirstComma kept)).getD 0

/-- JS truthiness of a string in `||` chains: non-empty. -/
def jsOr (a b : String) : String :=
  if a = "" then b else a

/-- The blank-row test of `parseCSV`: `row.some((x) => String(x).trim() !== "")`. -/
def rowNonBlank (row : List String) : Bool :=
  row.any (fun x => norm x ≠ "")

/-- Append a finished row to the output unless it is entirely blank. -/
def pushRow (row : List String) (out : List (List String)) : List (List String) :=
  if rowNonBlank row then out ++ [row] else out

/-- The character loop of `parseCSV` from src/app.js, with the loop
state (`inQuotes`, current cell, current row, rows so far) explicit.
The two-character lookaheads (`""` inside quotes, `\r\n`) become
two-deep patterns on the remaining input; the catch-all last arm is
reached exactly when the JS loop falls through to `cell += c`: inside
quotes with `c` not a quote, or outside quotes with `c` none of
`"` `,` `\n` `\r`. -/
def parseCSVAux : List Char → Bool → List Char → List String → List (List String) →
    List (List String)
  | [], _, cell, row, out =>
    if cell.length ≠ 0 ∨ row ≠ [] then pushRow (row ++ [⟨cell⟩]) out else out
  | '"' :: '"' :: rest2, true, cell, row, out =>
    parseCSVAux rest2 true (cell ++ ['"']) row out
  | '"' :: rest, true, cell, row, out =>
    parseCSVAux rest false cell row out
  | '"' :: rest, false, cell, row, out =>
    parseCSVAux rest true cell row out
  | ',' :: rest, false, cell, row, out =>
    parseCSVAux rest false [] (row ++ [⟨cell⟩]) out
  | '\r' :: '\n' :: rest2, false, cell, row, out =>
    parseCSVAux rest2 false [] [] (pushRow (row ++ [⟨cell⟩]) out)
  | '\r' :: rest, false, cell, row, out =>
    parseCSVAux rest false [] [] (pushRow (row ++ [⟨cell⟩]) out)
  | '\n' :: rest, false, cell, row, out =>
    parseCSVAux rest false [] [] (pushRow (row ++ [⟨cell⟩]) out)
  | c :: rest, inQ, cell, row, out =>
    parseCSVAux rest inQ (cell ++ [c]) row out

/-- `parseCSV` from src/app.js. -/
def parseCSV (text : String) : List (List String) :=
  parseCSVAux text.data false [] [] []

/-- The canonical fields, in the declaration order of `HEADER_ALIASES`
(`from`/`to` are spelled `from_`/`to_` because `from` is reserved). -/
inductive CanonField
  | inc | days | date | activity | from_ | to_ | place | km | lodging | status | cost
  | notes | address | link
deriving DecidableEq, Repr, Fintype

/-- `Object.keys(HEADER_ALIASES)` order. -/
def fieldOrder : List CanonField :=
  [.inc, .days, .date, .activity, .from_, .to_, .place, .km, .lodging, .status, .cost,
   .notes, .address, .link]

/-- `HEADER_ALIASES` from src/app.js.  The strings `"attivit√†"` and
`"citt√†"` are byte-for-byte the literals found in the source (the file
holds mojibake U+221A U+2020 where `à` was intended). -/
def HEADER_ALIASES : CanonField → List String
  | .inc => ["inc", "index", "#", "id"]
  | .days => ["n days", "n. days", "days", "giorni", "durata"]
  | .date => ["data", "date", "giorno"]
  | .activity => ["attivit√†", "attivita", "activity", "tipo", "type"]
  | .from_ => ["partenza", "da", "from", "start", "origine", "departure"]
  | .to_ => ["arrivo", "a", "to", "end", "destinazione", "arrival"]
  | .place => ["luogo", "citta", "citt√†", "city", "location", "tappa", "stop"]
  | .km => ["km", "kms", "distanza", "distance"]
  | .lodging => ["pernottamento", "hotel", "alloggio", "accommodation", "lodging"]
  | .status => ["stato", "status", "prenotazione", "booking status"]
  | .cost => ["costo", "cost", "prezzo", "price", "budget"]
  | .notes => ["note", "notes", "commenti", "comment", "memo"]
  | .address => ["indirizzo", "address", "location address", "place address"]
  | .link => ["link", "url", "booking link", "website"]

/-- The normalized alias set of a canonical field. -/
def aliasKeys (f : CanonField) : List String :=
  (HEADER_ALIASES f).map keyifyHeader

/-- `buildHeaderIndex` from src/app.js: for each canonical field,
`headerKeys.findIndex((k) => aliases.includes(k))`, which is `-1` when
no column matches. -/
def buildHeaderIndex (headerRow : List String) (f : CanonField) : Int :=
  match (headerRow.map keyifyHeader).findIdx? (fun k => decide (k ∈ aliasKeys f)) with
  | some i => (i : Int)
  | none => -1

/-- `getCell` from src/app.js: empty string for an absent field or an
out-of-range column, otherwise the trimmed cell. -/
def getCell (row : List String) (idx : CanonField → Int) (f : CanonField) : String :=
  if idx f < 0 then "" else norm (row.getD (idx f).toNat "")

/-- A normalized record as built in `load` (src/app.js lines 223–247).
The derived fields `_dateISO`, `_km`, `_cost`, `_city`, `_addr` are
spelled `dateISO`, `kmN`, `costN`, `city`, `addr`. -/
structure TripRecord where
  inc : String
  days : String
  date : String
  activity : String
  from_ : String
  to_ : String
  place : String
  km : String
  lodging : String
  status : String
  cost : String
  notes : String
  address : String
  link : String
  dateISO : String
  kmN : ℚ
  costN : ℚ
  city : String
  addr : String
deriving DecidableEq, Repr

/-- One element of the `matrix.slice(1).map((r) => ...)` body of `load`. -/
def normalizeRow (idx : CanonField → Int) (r : List String) : TripRecord :=
  let date := getCell r idx .date
  let from_ := getCell r idx .from_
  let to_ := getCell r idx .to_
  let place := getCell r idx .place
  let address := getCell r idx .address
  { inc := getCell r idx .inc
    days := getCell r idx .days
    date := date
    activity := getCell r idx .activity
    from_ := from_
    to_ := to_
    place := place
    km := getCell r idx .km
    lodging := getCell r idx .lodging
    status := getCell r idx .status
    cost := getCell r idx .cost
    notes := getCell r idx .notes
    address := address
    link := getCell r idx .link
    dateISO := toISO date
    kmN := safeNum (getCell r idx .km)
    costN := safeNum (getCell r idx .cost)
    city := jsOr place (jsOr to_ (jsOr from_ ""))
    addr := jsOr address (jsOr place (jsOr to_ (jsOr from_ ""))) }

/-- Code-point comparison of two characters. -/
def charLtB (a b : Char) : Bool :=
  a.val.toNat < b.val.toNat

/-- Lexicographic code-point order on character lists. -/
def strLtB : List Char → List Char → Bool
  | [], [] => false
  | [], _ :: _ => true
  | _ :: _, [] => false
  | a :: as, b :: bs =>
    if charLtB a b then true
    else if charLtB b a then false
    else strLtB as bs

/-- Lexicographic code-point order on strings. -/
def strLt (a b : String) : Bool :=
  strLtB a.data b.data

/-- The comparator of src/app.js line 250:
`a._dateISO.localeCompare(b._dateISO) || (norm(a.activity) === "Trip" ? -1 : 1)`.
`localeCompare` on `yyyy-mm-dd` strings is modelled as code-point
order (on these all-ASCII, digits-and-hyphen strings the two agree). -/
def rowCompare (a b : TripRecord) : Int :=
  if strLt a.dateISO b.dateISO then -1
  else if strLt b.dateISO a.dateISO then 1
  else if norm a.activity = "Trip" then -1 else 1

/-- Fuelled worker for `jsMerge`; the fuel only serves structural
recursion and never runs out when it starts at the combined length. -/
def jsMergeF (cmp : α → α → Int) : ℕ → List α → List α → List α
  | _, [], r => r
  | _, a :: l, [] => a :: l
  | 0, l, r => l ++ r
  | n + 1, a :: l, b :: r =>
    if cmp a b ≤ 0 then a :: jsMergeF cmp n l (b :: r)
    else b :: jsMergeF cmp n (a :: l) r

/-- Stable two-way merge: take from the left run while the comparator
says it is not after the right head. -/
def jsMerge (cmp : α → α → Int) (l r : List α) : List α :=
  jsMergeF cmp (l.length + r.length) l r

/-- Fuelled worker for `jsSort`; fuel at the list length suffices. -/
def jsSortF (cmp : α → α → Int) : ℕ → List α → List α
  | _, [] => []
  | _, [a] => [a]
  | 0, l => l
  | n + 1, a :: b :: rest =>
    jsMerge cmp
      (jsSortF cmp n ((a :: b :: rest).take ((a :: b :: rest).length / 2)))
      (jsSortF cmp n ((a :: b :: rest).drop ((a :: b :: rest).length / 2)))

/-- `Array.prototype.sort(cmp)` modelled as a stable top-down merge
sort (the engine's sort is a stable, merge-based comparison sort). -/
def jsSort (cmp : α → α → Int) (l : List α) : List α :=
  jsSortF cmp l.length l

/-- The pure content of `load` (src/app.js lines 208–250): the fetch
outcome is a parameter (`fetchOk = false` covers both a transport
error and a non-success response, either of which aborts before the
record set is touched), and the result is the new working set or the
thrown error message. -/
def loadPure (fetchOk : Bool) (text : String) : Except String (List TripRecord) :=
  if fetchOk = false then .error "Impossibile caricare il CSV pubblicato."
  else
    if (parseCSV text).length = 0 then .error "CSV vuoto o non leggibile."
    else
      if buildHeaderIndex ((parseCSV text).headI) .date < 0 then
        .error "Non trovo la colonna Data/Date (rinomina o aggiungi alias)."
      else
        .ok (jsSort rowCompare
          ((((parseCSV text).drop 1).map
              (normalizeRow (buildHeaderIndex ((parseCSV text).headI)))).filter
            (fun r => r.dateISO ≠ "")))

/-- The module-level `rows` after a call to `load`: on any thrown
error the previous value is untouched. -/
def loadState (prev : List TripRecord) (fetchOk : Bool) (text : String) :
    List TripRecord :=
  match loadPure fetchOk text with
  | .ok rs => rs
  | .error _ => prev

/-- A cached geocode result (`{lat, lng, display}`); coordinates are
exact rationals, a non-finite `Number` is modelled before this point
as `none`. -/
structure GeoHit where
  lat : ℚ
  lng : ℚ
  display : String
deriving DecidableEq, Repr

/-- One candidate of the Nominatim JSON response; `lat`/`lon` are
`none` when `Number(data[0].lat)` would not be finite. -/
structure Candidate where
  lat : Option ℚ
  lon : Option ℚ
  display_name : String
deriving DecidableEq, Repr

/-- Outcome of the outbound `fetch`: `notOk` models `!res.ok`,
`ok data` a success response with its candidate array. -/
inductive FetchResponse
  | notOk
  | ok (data : List Candidate)
deriving DecidableEq, Repr

/-- The shared mutable state of the geocode component: the persistent
cache (assoc list, newest first) and the module-level `lastGeocodeAt`
timestamp (ms). -/
structure GeoState where
  cache : List (String × GeoHit)
  lastGeocodeAt : ℤ
deriving DecidableEq, Repr

/-- Observable effects of one resolver call, in program order. -/
inductive GeoEvent
  | requestIssued (t : ℤ)
  | responseReceived (t : ℤ)
  | timestampUpdated (t : ℤ)
deriving DecidableEq, Repr

/-- Result of one resolver call: the returned value, the state after
the call, the time the outbound request was issued (`none` when no
request was made), and the ordered effect trace. -/
structure GeoCallOut where
  result : Option GeoHit
  state : GeoState
  request : Option ℤ
  events : List GeoEvent
deriving DecidableEq, Repr

/-- `geocodeNominatim` from src/app.js as a pure function of the query,
the shared state, the entry time `t0` (`Date.now()` at line 181), the
fetch duration `fetchDur`, and the response.  On a miss the call sleeps
`max 0 (1100 - (t0 - lastGeocodeAt))`, issues the request, and — per
lines 186–187 — assigns `lastGeocodeAt = Date.now()` only after the
`fetch` promise has resolved, i.e. at response time. -/
def geocodeNominatim (query : String) (st : GeoState) (t0 : ℤ) (fetchDur : ℤ)
    (resp : FetchResponse) : GeoCallOut :=
  let q := norm query
  if q = "" then ⟨none, st, none, []⟩
  else
    match st.cache.lookup q with
    | some hit => ⟨some hit, st, none, []⟩
    | none =>
      let wait := max 0 (1100 - (t0 - st.lastGeocodeAt))
      let requestTime := t0 + wait
      let responseTime := requestTime + fetchDur
      let st1 : GeoState := { st with lastGeocodeAt := responseTime }
      let evs : List GeoEvent :=
        [.requestIssued requestTime, .responseReceived responseTime,
         .timestampUpdated responseTime]
      match resp with
      | .notOk => ⟨none, st1, some requestTime, evs⟩
      | .ok [] => ⟨none, st1, some requestTime, evs⟩
      | .ok (c :: _) =>
        match c.lat, c.lon with
        | some la, some lo =>
          let hit : GeoHit := ⟨la, lo, c.display_name⟩
          ⟨some hit, { st1 with cache := (q, hit) :: st1.cache }, some requestTime, evs⟩
        | _, _ => ⟨none, st1, some requestTime, evs⟩

/-- `true` when the trace records a timestamp update strictly before a
response receipt (the order claim C1 asserts). -/
def updateBeforeResponse (evs : List GeoEvent) : Bool :=
  match evs.findIdx? (fun e => match e with | .timestampUpdated _ => true | _ => false),
        evs.findIdx? (fun e => match e with | .responseReceived _ => true | _ => false) with
  | some i, some j => i < j
  | _, _ => false

theorem uint32_le_toNat (a b : UInt32) : (a ≤ b) ↔ a.toNat ≤ b.toNat :=
  Iff.rfl

theorem digit_not_ws {c : Char} (h : c.isDigit = true) : isJsWs c = false := by
  have hd : 48 ≤ c.val.toNat ∧ c.val.toNat ≤ 57 := by
    simpa [Char.isDigit, ge_iff_le, uint32_le_toNat] using h
  simp only [isJsWs, Bool.or_eq_false_iff, decide_eq_false_iff_not]
  repeat' apply And.intro
  all_goals intro hc
  all_goals subst hc
  all_goals exact absurd hd (by decide)

theorem digit_ne_slash {c : Char} (h : c.isDigit = true) : (c = '/') = False := by
  have hd : 48 ≤ c.val.toNat ∧ c.val.toNat ≤ 57 := by
    simpa [Char.isDigit, ge_iff_le, uint32_le_toNat] using h
  simp only [eq_iff_iff, iff_false]
  intro hc
  subst hc
  exact absurd hd (by decide)

theorem slash_not_ws : isJsWs '/' = false := by decide

theorem dropWhile_eq_self_of {α : Type} (p : α → Bool) (cs : List α)
    (h : ∀ c ∈ cs, p c = false) : cs.dropWhile p = cs := by
  cases cs with
  | nil => rfl
  | cons a l => simp [List.dropWhile_cons, h a (by simp)]

theorem trimChars_eq_self {cs : List Char} (h : ∀ c ∈ cs, isJsWs c = false) :
    trimChars cs = cs := by
  unfold trimChars
  rw [dropWhile_eq_self_of _ _ h, dropWhile_eq_self_of, List.reverse_reverse]
  intro c hc
  exact h c (by simpa using hc)

theorem splitSlash_no_slash {cs : List Char} (h : ∀ c ∈ cs, (c = '/') = False) :
    splitSlash cs = [cs] := by
  induction cs with
  | nil => rfl
  | cons a l ih =>
    have ha : (a = '/') = False := h a (by simp)
    rw [splitSlash, if_neg (by simp [ha]), ih (fun c hc => h c (by simp [hc]))]

theorem splitSlash_append {d : List Char} (rest : List Char)
    (h : ∀ c ∈ d, (c = '/') = False) :
    splitSlash (d ++ '/' :: rest) = d :: splitSlash rest := by
  induction d with
  | nil => simp [splitSlash]
  | cons a l ih =>
    have ha : (a = '/') = False := h a (by simp)
    rw [List.cons_append, splitSlash, if_neg (by simp [ha]),
      ih (fun c hc => h c (by simp [hc]))]

/-- The date shape accepted by `toISO` normalizes as the spec says:
`d/m/yyyy` (1–2 digit day and month, 4-digit year) becomes
`yyyy-mm-dd` with zero padding. -/
theorem toISO_of_shape (d m y : List Char)
    (hd1 : 1 ≤ d.length) (hd2 : d.length ≤ 2) (hd : d.all Char.isDigit = true)
    (hm1 : 1 ≤ m.length) (hm2 : m.length ≤ 2) (hm : m.all Char.isDigit = true)
    (hy1 : y.length = 4) (hy : y.all Char.isDigit = true) :
    toISO ⟨d ++ ('/' :: (m ++ ('/' :: y)))⟩ = ⟨y ++ '-' :: pad2 m ++ '-' :: pad2 d⟩ := by
  have hdd := List.all_eq_true.mp hd
  have hmm := List.all_eq_true.mp hm
  have hyy := List.all_eq_true.mp hy
  have hall : ∀ c ∈ d ++ ('/' :: (m ++ ('/' :: y))), isJsWs c = false := by
    intro c hc
    simp only [List.mem_append, List.mem_cons] at hc
    rcases hc with h | h | h | h | h
    · exact digit_not_ws (hdd c h)
    · exact h ▸ slash_not_ws
    · exact digit_not_ws (hmm c h)
    · exact h ▸ slash_not_ws
    · exact digit_not_ws (hyy c h)
  have hsplit : splitSlash (d ++ ('/' :: (m ++ ('/' :: y)))) = [d, m, y] := by
    rw [splitSlash_append _ (fun c hc => digit_ne_slash (hdd c hc)),
      splitSlash_append _ (fun c hc => digit_ne_slash (hmm c hc)),
      splitSlash_no_slash (fun c hc => digit_ne_slash (hyy c hc))]
  show toISO ⟨d ++ ('/' :: (m ++ ('/' :: y)))⟩ = _
  unfold toISO
  rw [show (⟨d ++ ('/' :: (m ++ ('/' :: y)))⟩ : String).data
      = d ++ ('/' :: (m ++ ('/' :: y))) from rfl,
    trimChars_eq_self hall, hsplit]
  simp only [hd1, hd2, hd, hm1, hm2, hm, hy1, hy, and_self, if_pos, true_and, and_true]

theorem charLtB_asymm {a b : Char} (h : charLtB a b = true) : charLtB b a = false := by
  revert h
  unfold charLtB
  simp only [decide_eq_true_eq, decide_eq_false_iff_not]
  omega

theorem charLtB_eq {a b : Char} (h1 : charLtB a b = false) (h2 : charLtB b a = false) :
    a = b := by
  revert h1 h2
  unfold charLtB
  simp only [decide_eq_false_iff_not, Char.ext_iff, UInt32.ext_iff]
  omega

theorem strLtB_irrefl : ∀ l : List Char, strLtB l l = false := by
  intro l
  induction l with
  | nil => rfl
  | cons a as ih =>
    unfold strLtB
    have : charLtB a a = false := by
      unfold charLtB
      simp
    rw [if_neg (by simp [this]), if_neg (by simp [this])]
    exact ih

theorem strLtB_eq_of_not : ∀ {l₁ l₂ : List Char},
    strLtB l₁ l₂ = false → strLtB l₂ l₁ = false → l₁ = l₂ := by
  intro l₁
  induction l₁ with
  | nil =>
    intro l₂ h1 h2
    cases l₂ with
    | nil => rfl
    | cons b bs => simp [strLtB] at h1
  | cons a as ih =>
    intro l₂ h1 h2
    cases l₂ with
    | nil => simp [strLtB] at h2
    | cons b bs =>
      rw [strLtB] at h1 h2
      unfold charLtB at h1 h2
      by_cases hab : a.val.toNat < b.val.toNat
      · simp [hab] at h1
      · by_cases hba : b.val.toNat < a.val.toNat
        · simp [hba] at h2
        · have heq : a = b := by
            rw [Char.ext_iff, UInt32.ext_iff]
            omega
          subst heq
          simp [hab] at h1 h2
          rw [ih h1 h2]

theorem strLtB_trans : ∀ {l₁ l₂ l₃ : List Char},
    strLtB l₁ l₂ = true → strLtB l₂ l₃ = true → strLtB l₁ l₃ = true := by
  intro l₁
  induction l₁ with
  | nil =>
    intro l₂ l₃ h1 h2
    cases l₂ with
    | nil => simp [strLtB] at h1
    | cons b bs =>
      cases l₃ with
      | nil => simp [strLtB] at h2
      | cons c cs => simp [strLtB]
  | cons a as ih =>
    intro l₂ l₃ h1 h2
    cases l₂ with
    | nil => simp [strLtB] at h1
    | cons b bs =>
      cases l₃ with
      | nil => simp [strLtB] at h2
      | cons c cs =>
        rw [strLtB] at h1 h2 ⊢
        unfold charLtB at h1 h2 ⊢
        by_cases hab : a.val.toNat < b.val.toNat
        · by_cases hbc : b.val.toNat < c.val.toNat
          · simp [show a.val.toNat < c.val.toNat by omega]
          · have hcb : ¬ c.val.toNat < b.val.toNat := by
              intro hcb
              simp [hbc, hcb] at h2
            simp [show a.val.toNat < c.val.toNat by omega]
        · have hba : ¬ b.val.toNat < a.val.toNat := by
            intro hba
            simp [hab, hba] at h1
          by_cases hbc : b.val.toNat < c.val.toNat
          · simp [show a.val.toNat < c.val.toNat by omega]
          · have hcb : ¬ c.val.toNat < b.val.toNat := by
              intro hcb
              simp [hbc, hcb] at h2
            simp [hab, hba] at h1
            simp [hbc, hcb] at h2
            rw [if_neg (by simp only [decide_eq_true_eq]; omega),
              if_neg (by simp only [decide_eq_true_eq]; omega)]
            exact ih h1 h2

theorem strLt_eq_of_not {a b : String} (h1 : strLt a b = false)
    (h2 : strLt b a = false) : a = b := by
  apply String.ext
  exact strLtB_eq_of_not h1 h2

theorem strLt_irrefl (a : String) : strLt a a = false :=
  strLtB_irrefl a.data

theorem strLt_trans {a b c : String} (h1 : strLt a b = true) (h2 : strLt b c = true) :
    strLt a c = true :=
  strLtB_trans h1 h2

/-- The non-strict date order used in `goodPair`. -/
def dateLE (a b : String) : Prop :=
  strLt a b = true ∨ a = b

theorem dateLE_trans {a b c : String} (h1 : dateLE a b) (h2 : dateLE b c) :
    dateLE a c := by
  rcases h1 with h1 | rfl
  · rcases h2 with h2 | rfl
    · exact Or.inl (strLt_trans h1 h2)
    · exact Or.inl h1
  · exact h2

/-- If `a ≤ b ≤ c` in the date order and `a = c`, the whole chain is
equal. -/
theorem dateLE_sandwich {a b c : String} (h1 : dateLE a b) (h2 : dateLE b c)
    (h3 : a = c) : a = b := by
  subst h3
  rcases h1 with h1 | h1
  · exfalso
    rcases h2 with h2 | h2
    · exact absurd (strLt_trans h1 h2) (by simp [strLt_irrefl])
    · subst h2
      exact absurd h1 (by simp [strLt_irrefl])
  · exact h1

/-- `goodPair a b` is what claim C2 requires of a pair `a` before `b`
in the working set: dates ascend (code-point order on the ISO texts),
and on a date tie a non-"Trip" record is never before a "Trip"
record. -/
def goodPair (a b : TripRecord) : Prop :=
  dateLE a.dateISO b.dateISO ∧
    (a.dateISO = b.dateISO → norm b.activity = "Trip" → norm a.activity = "Trip")

theorem rowCompare_le_cases {a b : TripRecord} (h : rowCompare a b ≤ 0) :
    strLt a.dateISO b.dateISO = true ∨
      (a.dateISO = b.dateISO ∧ norm a.activity = "Trip") := by
  unfold rowCompare at h
  split at h
  · exact Or.inl (by assumption)
  · split at h
    · omega
    · right
      refine ⟨strLt_eq_of_not (by simpa using (by assumption : ¬ strLt a.dateISO b.dateISO = true))
          (by simpa using (by assumption : ¬ strLt b.dateISO a.dateISO = true)), ?_⟩
      by_contra hn
      rw [if_neg hn] at h
      omega

theorem rowCompare_pos_cases {a b : TripRecord} (h : ¬ rowCompare a b ≤ 0) :
    strLt b.dateISO a.dateISO = true ∨
      (a.dateISO = b.dateISO ∧ ¬ norm a.activity = "Trip") := by
  unfold rowCompare at h
  split at h
  · omega
  · split at h
    · exact Or.inl (by assumption)
    · right
      refine ⟨strLt_eq_of_not (by simpa using (by assumption : ¬ strLt a.dateISO b.dateISO = true))
          (by simpa using (by assumption : ¬ strLt b.dateISO a.dateISO = true)), ?_⟩
      intro ht
      rw [if_pos ht] at h
      omega

theorem strLt_ne {a b : String} (h : strLt a b = true) : a ≠ b := by
  intro he
  subst he
  exact absurd h (by simp [strLt_irrefl])

theorem goodPair_of_le {a b : TripRecord} (h : rowCompare a b ≤ 0) : goodPair a b := by
  rcases rowCompare_le_cases h with h | ⟨h1, h2⟩
  · exact ⟨Or.inl h, fun he => absurd he (strLt_ne h)⟩
  · exact ⟨Or.inr h1, fun _ _ => h2⟩

theorem goodPair_of_pos {a b : TripRecord} (h : ¬ rowCompare a b ≤ 0) : goodPair b a := by
  rcases rowCompare_pos_cases h with h | ⟨h1, h2⟩
  · exact ⟨Or.inl h, fun he => absurd he (strLt_ne h)⟩
  · exact ⟨Or.inr h1.symm, fun _ ht => absurd ht h2⟩

theorem mem_jsMergeF {α : Type} (cmp : α → α → Int) :
    ∀ (n : ℕ) (l r : List α) (x : α), x ∈ jsMergeF cmp n l r ↔ x ∈ l ∨ x ∈ r := by
  intro n
  induction n with
  | zero =>
    intro l r x
    cases l <;> cases r <;> simp [jsMergeF] <;> tauto
  | succ n ih =>
    intro l r x
    cases l with
    | nil => simp [jsMergeF]
    | cons a l =>
      cases r with
      | nil => simp [jsMergeF]
      | cons b r =>
        rw [jsMergeF]
        by_cases hc : cmp a b ≤ 0
        · rw [if_pos hc, List.mem_cons, ih l (b :: r) x]
          simp only [List.mem_cons]
          tauto
        · rw [if_neg hc, List.mem_cons, ih (a :: l) r x]
          simp only [List.mem_cons]
          tauto

theorem mem_jsMerge {α : Type} (cmp : α → α → Int) (l r : List α) (x : α) :
    x ∈ jsMerge cmp l r ↔ x ∈ l ∨ x ∈ r :=
  mem_jsMergeF cmp (l.length + r.length) l r x

theorem jsMergeF_pairwise :
    ∀ (n : ℕ) (l r : List TripRecord), l.length + r.length ≤ n →
      l.Pairwise goodPair → r.Pairwise goodPair →
      (jsMergeF rowCompare n l r).Pairwise goodPair := by
  intro n
  induction n with
  | zero =>
    intro l r hn hl hr
    cases l with
    | nil => simpa [jsMergeF] using hr
    | cons a l => simp at hn
  | succ n ih =>
    intro l r hn hl hr
    cases l with
    | nil => simpa [jsMergeF] using hr
    | cons a l =>
      cases r with
      | nil => simpa [jsMergeF] using hl
      | cons b r =>
        simp only [List.length_cons] at hn
        rw [jsMergeF]
        by_cases hc : rowCompare a b ≤ 0
        · rw [if_pos hc]
          rw [List.pairwise_cons] at hl
          refine List.Pairwise.cons ?_ (ih l (b :: r) (by simp; omega) hl.2 hr)
          intro x hx
          rcases (mem_jsMergeF rowCompare n l (b :: r) x).mp hx with hxl | hxr
          · exact hl.1 x hxl
          · have hab : goodPair a b := goodPair_of_le hc
            rcases List.mem_cons.mp hxr with rfl | hxr
            · exact hab
            · rw [List.pairwise_cons] at hr
              have hbx : goodPair b x := hr.1 x hxr
              refine ⟨dateLE_trans hab.1 hbx.1, fun he hxt => ?_⟩
              have h1 : a.dateISO = b.dateISO := dateLE_sandwich hab.1 hbx.1 he
              have h2 : b.dateISO = x.dateISO := h1 ▸ he
              exact hab.2 h1 (hbx.2 h2 hxt)
        · rw [if_neg hc]
          rw [List.pairwise_cons] at hr
          refine List.Pairwise.cons ?_ (ih (a :: l) r (by simp; omega) hl hr.2)
          intro x hx
          rcases (mem_jsMergeF rowCompare n (a :: l) r x).mp hx with hxl | hxr
          · have hba : goodPair b a := goodPair_of_pos hc
            rcases List.mem_cons.mp hxl with rfl | hxl
            · exact hba
            · rw [List.pairwise_cons] at hl
              have hax : goodPair a x := hl.1 x hxl
              refine ⟨dateLE_trans hba.1 hax.1, fun he hxt => ?_⟩
              have h1 : b.dateISO = a.dateISO := dateLE_sandwich hba.1 hax.1 he
              have h2 : a.dateISO = x.dateISO := h1 ▸ he
              rcases rowCompare_pos_cases hc with hlt | ⟨heq, hnt⟩
              · exact absurd h1 (strLt_ne hlt)
              · exact absurd (hax.2 h2 hxt) hnt
          · exact hr.1 x hxr

theorem jsMerge_pairwise {l r : List TripRecord}
    (hl : l.Pairwise goodPair) (hr : r.Pairwise goodPair) :
    (jsMerge rowCompare l r).Pairwise goodPair :=
  jsMergeF_pairwise (l.length + r.length) l r le_rfl hl hr

theorem mem_jsSortF {α : Type} (cmp : α → α → Int) :
    ∀ (n : ℕ) (l : List α) (x : α), x ∈ jsSortF cmp n l ↔ x ∈ l := by
  intro n
  induction n with
  | zero =>
    intro l x
    cases l with
    | nil => simp [jsSortF]
    | cons a t => cases t <;> simp [jsSortF]
  | succ n ih =>
    intro l x
    cases l with
    | nil => simp [jsSortF]
    | cons a t =>
      cases t with
      | nil => simp [jsSortF]
      | cons b rest =>
        rw [jsSortF, mem_jsMerge, ih _ x, ih _ x]
        conv_rhs =>
          rw [← List.take_append_drop (((a :: b :: rest).length) / 2) (a :: b :: rest)]
        rw [List.mem_append]

theorem mem_jsSort {α : Type} (cmp : α → α → Int) (l : List α) (x : α) :
    x ∈ jsSort cmp l ↔ x ∈ l :=
  mem_jsSortF cmp l.length l x

theorem jsSortF_pairwise :
    ∀ (n : ℕ) (l : List TripRecord), l.length ≤ n →
      (jsSortF rowCompare n l).Pairwise goodPair := by
  intro n
  induction n with
  | zero =>
    intro l hn
    cases l with
    | nil => simp [jsSortF]
    | cons a t => simp at hn
  | succ n ih =>
    intro l hn
    cases l with
    | nil => simp [jsSortF]
    | cons a t =>
      cases t with
      | nil => simp [jsSortF]
      | cons b rest =>
        simp only [List.length_cons] at hn
        rw [jsSortF]
        refine jsMerge_pairwise (ih _ ?_) (ih _ ?_)
        · simp only [List.length_take, List.length_cons]
          omega
        · simp only [List.length_drop, List.length_cons]
          omega

theorem jsSort_pairwise (l : List TripRecord) :
    (jsSort rowCompare l).Pairwise goodPair :=
  jsSortF_pairwise l.length l le_rfl

/-- The derived ISO date of a normalized row is `toISO` of its date
cell (immediate from the construction in `load`). -/
theorem normalizeRow_dateISO (idx : CanonField → Int) (r : List String) :
    (normalizeRow idx r).dateISO = toISO (normalizeRow idx r).date :=
  rfl

theorem loadPure_ok_elim {fetchOk : Bool} {text : String} {rs : List TripRecord}
    (h : loadPure fetchOk text = .ok rs) :
    fetchOk = true ∧ (parseCSV text).length ≠ 0 ∧
      ¬ buildHeaderIndex ((parseCSV text).headI) .date < 0 ∧
      rs = jsSort rowCompare
        ((((parseCSV text).drop 1).map
            (normalizeRow (buildHeaderIndex ((parseCSV text).headI)))).filter
          (fun r => r.dateISO ≠ "")) := by
  unfold loadPure at h
  split at h
  · exact absurd h (by simp)
  · split at h
    · exact absurd h (by simp)
    · split at h
      · exact absurd h (by simp)
      · refine ⟨by rename_i hf _ _; revert hf; cases fetchOk <;> simp, by assumption,
          by assumption, by injection h with h2; exact h2.symm⟩

theorem loadPure_error_state (prev : List TripRecord) {fetchOk : Bool} {text : String}
    {e : String} (h : loadPure fetchOk text = .error e) :
    loadState prev fetchOk text = prev := by
  unfold loadState
  rw [h]

theorem loadPure_error_cases {fetchOk : Bool} {text : String}
    (h : fetchOk = false ∨ (parseCSV text).length = 0 ∨
      buildHeaderIndex ((parseCSV text).headI) .date < 0) :
    ∃ e, loadPure fetchOk text = .error e := by
  unfold loadPure
  rcases h with h | h | h
  · exact ⟨_, by rw [if_pos h]⟩
  · by_cases hf : fetchOk = false
    · exact ⟨_, by rw [if_pos hf]⟩
    · exact ⟨_, by rw [if_neg hf, if_pos h]⟩
  · by_cases hf : fetchOk = false
    · exact ⟨_, by rw [if_pos hf]⟩
    · by_cases hm : (parseCSV text).length = 0
      · exact ⟨_, by rw [if_neg hf, if_pos hm]⟩
      · exact ⟨_, by rw [if_neg hf, if_neg hm, if_pos h]⟩

/-- Every record of a successfully loaded working set is a normalized
row whose date text passed `toISO` (non-empty derived ISO date). -/
theorem loadPure_ok_mem {fetchOk : Bool} {text : String} {rs : List TripRecord}
    (h : loadPure fetchOk text = .ok rs) :
    ∀ r ∈ rs, r.dateISO = toISO r.date ∧ r.dateISO ≠ "" := by
  obtain ⟨-, -, -, hrs⟩ := loadPure_ok_elim h
  intro r hr
  rw [hrs, mem_jsSort, List.mem_filter] at hr
  obtain ⟨hmap, hne⟩ := hr
  obtain ⟨row, -, hrow⟩ := List.mem_map.mp hmap
  constructor
  · rw [← hrow]
    exact normalizeRow_dateISO _ _
  · simpa using hne

theorem mem_fieldOrder : ∀ f : CanonField, f ∈ fieldOrder := by
  intro f
  cases f <;> simp [fieldOrder]

set_option maxRecDepth 100000 in
theorem aliasKeys_disjoint_all : ∀ f ∈ fieldOrder, ∀ g ∈ fieldOrder, f ≠ g →
    ∀ s ∈ aliasKeys f, s ∉ aliasKeys g := by
  decide

/-- No normalized header text belongs to the alias sets of two distinct
canonical fields: the fourteen normalized alias sets are pairwise
disjoint. -/
theorem aliasKeys_disjoint {f g : CanonField} (hne : f ≠ g) {s : String}
    (hf : s ∈ aliasKeys f) (hg : s ∈ aliasKeys g) : False :=
  aliasKeys_disjoint_all f (mem_fieldOrder f) g (mem_fieldOrder g) hne s hf hg

theorem buildHeaderIndex_neg_iff (header : List String) (f : CanonField) :
    buildHeaderIndex header f = -1 ↔ ∀ h ∈ header, keyifyHeader h ∉ aliasKeys f := by
  unfold buildHeaderIndex
  cases hf : (header.map keyifyHeader).findIdx? (fun k => decide (k ∈ aliasKeys f)) with
  | none =>
    rw [List.findIdx?_eq_none_iff] at hf
    simp only [true_iff]
    intro h hh hmem
    have := hf (keyifyHeader h) (List.mem_map_of_mem _ hh)
    simp [hmem] at this
  | some j =>
    simp only []
    constructor
    · intro hj
      exact absurd hj (by omega)
    · intro hall
      exfalso
      rw [List.findIdx?_eq_some_iff_findIdx_eq] at hf
      obtain ⟨hlen, hidx⟩ := hf
      rw [List.findIdx_eq hlen] at hidx
      have hp := hidx.1
      rw [List.getElem_map] at hp
      rw [List.length_map] at hlen
      exact hall (header[j]) (List.getElem_mem hlen) (by simpa using hp)

theorem buildHeaderIndex_some_spec (header : List String) (f : CanonField) (i : ℕ)
    (h : buildHeaderIndex header f = (i : Int)) :
    i < header.length ∧ keyifyHeader (header.getD i "") ∈ aliasKeys f ∧
      ∀ j < i, keyifyHeader (header.getD j "") ∉ aliasKeys f := by
  unfold buildHeaderIndex at h
  cases hf : (header.map keyifyHeader).findIdx? (fun k => decide (k ∈ aliasKeys f)) with
  | none =>
    rw [hf] at h
    simp at h
  | some j =>
    rw [hf] at h
    simp only [Int.natCast_inj] at h
    subst h
    rw [List.findIdx?_eq_some_iff_findIdx_eq] at hf
    obtain ⟨hlen, hidx⟩ := hf
    rw [List.findIdx_eq hlen] at hidx
    rw [List.length_map] at hlen
    refine ⟨hlen, ?_, ?_⟩
    · have hp := hidx.1
      rw [List.getElem_map] at hp
      rw [List.getD_eq_getElem header "" hlen]
      simpa using hp
    · intro j2 hj2
      have hp := hidx.2 j2 hj2
      rw [List.getElem_map] at hp
      rw [List.getD_eq_getElem header "" (lt_trans hj2 hlen)]
      simpa using hp


/-- Double every quote character: the writer-side encoding of content
placed inside a double-quoted CSV field. -/
def escQuote : List Char → List Char
  | [] => []
  | c :: rest => if c = '"' then '"' :: '"' :: escQuote rest else c :: escQuote rest

/-- A string wrapped as a single double-quoted CSV field (embedded
quotes doubled). -/
def csvQuote (s : String) : String :=
  ⟨'"' :: (escQuote s.data ++ ['"'])⟩

/-- Inside quotes, the escaped content is consumed verbatim into the
current cell, up to the closing quote at end of input. -/
theorem parseCSVAux_quoted (cs : List Char) :
    ∀ (cell : List Char) (row : List String) (out : List (List String)),
      parseCSVAux (escQuote cs ++ ['"']) true cell row out =
        parseCSVAux [] false (cell ++ cs) row out := by
  induction cs with
  | nil =>
    intro cell row out
    rw [escQuote, List.nil_append, parseCSVAux.eq_3 _ _ _ [] (by intro r2 h; cases h)]
    simp [parseCSVAux]
  | cons c rest ih =>
    intro cell row out
    by_cases hc : c = '"'
    · subst hc
      rw [escQuote, if_pos rfl, List.cons_append, List.cons_append, parseCSVAux.eq_2,
        ih (cell ++ ['"']) row out, List.append_assoc]
      rfl
    · rw [escQuote, if_neg hc, List.cons_append]
      have h9 : parseCSVAux (c :: (escQuote rest ++ ['"'])) true cell row out =
          parseCSVAux (escQuote rest ++ ['"']) true (cell ++ [c]) row out := by
        simp [parseCSVAux, hc]
      rw [h9, ih (cell ++ [c]) row out, List.append_assoc]
      rfl

/-- Assoc-list update order used by the geocode cache. -/
theorem geocode_hit_lookup (q : String) (hit : GeoHit) (cache : List (String × GeoHit)) :
    ((q, hit) :: cache).lookup q = some hit := by
  simp [List.lookup]


/-- Full description of a resolver call that misses the cache: the
request is issued after the rate-limit wait, the response arrives
`fetchDur` later, and the shared timestamp is assigned the response
time, after the response event. -/
theorem geocode_miss_spec (query : String) (st : GeoState) (t0 fetchDur : ℤ)
    (resp : FetchResponse) (hq : norm query ≠ "")
    (hc : st.cache.lookup (norm query) = none) :
    (geocodeNominatim query st t0 fetchDur resp).request =
        some (t0 + max 0 (1100 - (t0 - st.lastGeocodeAt))) ∧
    (geocodeNominatim query st t0 fetchDur resp).events =
        [.requestIssued (t0 + max 0 (1100 - (t0 - st.lastGeocodeAt))),
         .responseReceived (t0 + max 0 (1100 - (t0 - st.lastGeocodeAt)) + fetchDur),
         .timestampUpdated (t0 + max 0 (1100 - (t0 - st.lastGeocodeAt)) + fetchDur)] ∧
    (geocodeNominatim query st t0 fetchDur resp).state.lastGeocodeAt =
        t0 + max 0 (1100 - (t0 - st.lastGeocodeAt)) + fetchDur := by
  simp only [geocodeNominatim]
  rw [if_neg hq, hc]
  cases resp with
  | notOk => exact ⟨rfl, rfl, rfl⟩
  | ok data =>
    cases data with
    | nil => exact ⟨rfl, rfl, rfl⟩
    | cons c rest =>
      rcases c with ⟨la, lo, disp⟩
      cases la <;> cases lo <;> exact ⟨rfl, rfl, rfl⟩

/-- A cache hit returns the stored value, touches nothing, issues no
request and records no events (in particular no rate-limit wait). -/
theorem geocode_hit_spec (query : String) (st : GeoState) (t0 fetchDur : ℤ)
    (resp : FetchResponse) (hit : GeoHit) (hq : norm query ≠ "")
    (hc : st.cache.lookup (norm query) = some hit) :
    geocodeNominatim query st t0 fetchDur resp = ⟨some hit, st, none, []⟩ := by
  simp only [geocodeNominatim]
  rw [if_neg hq, hc]

/-- A successful resolution (ok response, first candidate with finite
coordinates) returns the hit and prepends it to the cache under the
normalized query. -/
theorem geocode_success_spec (query : String) (st : GeoState) (t0 fetchDur : ℤ)
    (c : Candidate) (data : List Candidate) (la lo : ℚ) (hq : norm query ≠ "")
    (hc : st.cache.lookup (norm query) = none)
    (hla : c.lat = some la) (hlo : c.lon = some lo) :
    (geocodeNominatim query st t0 fetchDur (.ok (c :: data))).result =
        some ⟨la, lo, c.display_name⟩ ∧
    (geocodeNominatim query st t0 fetchDur (.ok (c :: data))).state.cache =
        (norm query, ⟨la, lo, c.display_name⟩) :: st.cache ∧
    (geocodeNominatim query st t0 fetchDur (.ok (c :: data))).request.isSome = true := by
  simp only [geocodeNominatim]
  rw [if_neg hq, hc]
  rcases c with ⟨cla, clo, disp⟩
  cases cla with
  | none => cases hla
  | some la2 =>
    cases clo with
    | none => cases hlo
    | some lo2 =>
      injection hla with hla
      injection hlo with hlo
      subst hla
      subst hlo
      exact ⟨rfl, rfl, rfl⟩

/-- A failed resolution (non-success response or empty candidate list)
returns none and leaves the cache unchanged. -/
theorem geocode_failure_spec (query : String) (st : GeoState) (t0 fetchDur : ℤ)
    (resp : FetchResponse) (hq : norm query ≠ "")
    (hc : st.cache.lookup (norm query) = none)
    (hfail : resp = .notOk ∨ resp = .ok []) :
    (geocodeNominatim query st t0 fetchDur resp).result = none ∧
    (geocodeNominatim query st t0 fetchDur resp).state.cache = st.cache := by
  simp only [geocodeNominatim]
  rw [if_neg hq, hc]
  rcases hfail with rfl | rfl
  · exact ⟨rfl, rfl⟩
  · exact ⟨rfl, rfl⟩


/-- C1 (counterexample): a concrete resolver call that misses the cache
and reaches the network, whose effect trace does NOT place the
timestamp update before the response receipt: with an empty cache,
entry time 5000 and fetch duration 300, the trace is requestIssued,
responseReceived, then timestampUpdated — refuting the claim that the
shared last-call timestamp is updated at call time, before the
response arrives. -/
theorem C1_counterexample :
    (geocodeNominatim "Roma" ⟨[], 0⟩ 5000 300
        (.ok [⟨some 41, some 12, "Roma, Lazio"⟩])).request.isSome = true ∧
    updateBeforeResponse
      (geocodeNominatim "Roma" ⟨[], 0⟩ 5000 300
        (.ok [⟨some 41, some 12, "Roma, Lazio"⟩])).events = false :=
  ⟨rfl, rfl⟩

/-- C1 (amended): whenever the resolver misses the cache and issues an
outbound request, it updates the shared last-call timestamp only after
the response is received (src/app.js line 187 runs after the awaited
fetch of line 186): the trace is request, response, then update, and
the stored timestamp equals the response time, not the request-issue
time. -/
theorem C1_amended_update_after_response (query : String) (st : GeoState)
    (t0 fetchDur : ℤ) (resp : FetchResponse) (hq : norm query ≠ "")
    (hc : st.cache.lookup (norm query) = none) :
    ∃ rt, (geocodeNominatim query st t0 fetchDur resp).request = some rt ∧
      (geocodeNominatim query st t0 fetchDur resp).events =
        [.requestIssued rt, .responseReceived (rt + fetchDur),
         .timestampUpdated (rt + fetchDur)] ∧
      (geocodeNominatim query st t0 fetchDur resp).state.lastGeocodeAt =
        rt + fetchDur := by
  obtain ⟨h1, h2, h3⟩ := geocode_miss_spec query st t0 fetchDur resp hq hc
  exact ⟨_, h1, h2, h3⟩

/-- Witness for the amended C1 at a concrete uncached call. -/
theorem C1_amended_witness :
    norm "Roma" ≠ "" ∧
    (⟨[], 4000⟩ : GeoState).cache.lookup (norm "Roma") = none ∧
    ∃ rt, (geocodeNominatim "Roma" ⟨[], 4000⟩ 5000 300 .notOk).request = some rt ∧
      (geocodeNominatim "Roma" ⟨[], 4000⟩ 5000 300 .notOk).events =
        [.requestIssued rt, .responseReceived (rt + 300),
         .timestampUpdated (rt + 300)] ∧
      (geocodeNominatim "Roma" ⟨[], 4000⟩ 5000 300 .notOk).state.lastGeocodeAt =
        rt + 300 :=
  ⟨by decide, rfl,
   C1_amended_update_after_response "Roma" ⟨[], 4000⟩ 5000 300 .notOk (by decide) rfl⟩

/-- C4: for two resolver calls in sequence (the second runs on the
state left by the first) with both queries uncached and non-empty, the
second outbound request starts at least 1100 ms after the first
outbound request started (in fact at least 1100 ms after the first
response). -/
theorem C4_min_spacing (q1 q2 : String) (st : GeoState) (t0 d1 t1 d2 : ℤ)
    (resp1 resp2 : FetchResponse)
    (hq1 : norm q1 ≠ "") (hc1 : st.cache.lookup (norm q1) = none) (hd1 : 0 ≤ d1)
    (hq2 : norm q2 ≠ "")
    (hc2 : (geocodeNominatim q1 st t0 d1 resp1).state.cache.lookup (norm q2) = none) :
    ∀ rt1 rt2, (geocodeNominatim q1 st t0 d1 resp1).request = some rt1 →
      (geocodeNominatim q2 (geocodeNominatim q1 st t0 d1 resp1).state t1 d2
          resp2).request = some rt2 →
      rt1 + 1100 ≤ rt2 := by
  intro rt1 rt2 h1 h2
  obtain ⟨hr1, -, hlast1⟩ := geocode_miss_spec q1 st t0 d1 resp1 hq1 hc1
  obtain ⟨hr2, -, -⟩ :=
    geocode_miss_spec q2 (geocodeNominatim q1 st t0 d1 resp1).state t1 d2 resp2 hq2 hc2
  rw [h1] at hr1
  rw [h2] at hr2
  injection hr1 with hr1
  injection hr2 with hr2
  rw [hlast1] at hr2
  have hw1a : (0 : ℤ) ≤ max 0 (1100 - (t0 - st.lastGeocodeAt)) := le_max_left _ _
  have hw2a : 1100 - (t1 - (t0 + max 0 (1100 - (t0 - st.lastGeocodeAt)) + d1)) ≤
      max 0 (1100 - (t1 - (t0 + max 0 (1100 - (t0 - st.lastGeocodeAt)) + d1))) :=
    le_max_right _ _
  omega

/-- Witness for C4 at concrete calls: first request at 5000, first
response at 5300, second call entered at 5300 waits 1100 ms and issues
its request at 6400 ≥ 5000 + 1100. -/
theorem C4_witness :
    (geocodeNominatim "Roma" ⟨[], 0⟩ 5000 300 .notOk).request = some 5000 ∧
    (geocodeNominatim "Milano" (geocodeNominatim "Roma" ⟨[], 0⟩ 5000 300 .notOk).state
        5300 0 .notOk).request = some 6400 ∧
    (5000 : ℤ) + 1100 ≤ 6400 :=
  ⟨by decide, by decide,
   C4_min_spacing "Roma" "Milano" ⟨[], 0⟩ 5000 300 5300 0 .notOk .notOk
     (by decide) rfl (by decide) (by decide) rfl 5000 6400 (by decide) (by decide)⟩

/-- C5: the cache stores exactly the successful resolutions. A hit
returns the stored value with no request, no wait and no state change;
a successful miss returns the resolved hit, caches it under the
normalized query, and a repeat call for the same query is answered
from the cache with no second request; a failed miss (non-success
response or empty result set) caches nothing, and the next call for
the same query issues a fresh outbound request. -/
theorem C5_cache_success_only :
    (∀ (q : String) (st : GeoState) (t0 d : ℤ) (resp : FetchResponse) (hit : GeoHit),
      norm q ≠ "" → st.cache.lookup (norm q) = some hit →
      geocodeNominatim q st t0 d resp = ⟨some hit, st, none, []⟩) ∧
    (∀ (q : String) (st : GeoState) (t0 d : ℤ) (c : Candidate) (data : List Candidate)
        (la lo : ℚ),
      norm q ≠ "" → st.cache.lookup (norm q) = none →
      c.lat = some la → c.lon = some lo →
      (geocodeNominatim q st t0 d (.ok (c :: data))).request.isSome = true ∧
      (geocodeNominatim q st t0 d (.ok (c :: data))).result =
        some ⟨la, lo, c.display_name⟩ ∧
      (∀ (t0x dx : ℤ) (respx : FetchResponse),
        geocodeNominatim q (geocodeNominatim q st t0 d (.ok (c :: data))).state t0x dx
            respx =
          ⟨some ⟨la, lo, c.display_name⟩,
           (geocodeNominatim q st t0 d (.ok (c :: data))).state, none, []⟩)) ∧
    (∀ (q : String) (st : GeoState) (t0 d : ℤ) (resp : FetchResponse),
      norm q ≠ "" → st.cache.lookup (norm q) = none →
      (resp = .notOk ∨ resp = .ok []) →
      (geocodeNominatim q st t0 d resp).result = none ∧
      (geocodeNominatim q st t0 d resp).state.cache = st.cache ∧
      (∀ (t0x dx : ℤ) (respx : FetchResponse),
        (geocodeNominatim q (geocodeNominatim q st t0 d resp).state t0x dx
            respx).request.isSome = true)) := by
  refine ⟨fun q st t0 d resp hit hq hc => geocode_hit_spec q st t0 d resp hit hq hc,
    ?_, ?_⟩
  · intro q st t0 d c data la lo hq hc hla hlo
    obtain ⟨hres, hcache, hreq⟩ := geocode_success_spec q st t0 d c data la lo hq hc hla hlo
    refine ⟨hreq, hres, fun t0x dx respx => ?_⟩
    refine geocode_hit_spec q _ t0x dx respx _ hq ?_
    rw [hcache]
    exact geocode_hit_lookup (norm q) _ st.cache
  · intro q st t0 d resp hq hc hfail
    obtain ⟨hres, hcache⟩ := geocode_failure_spec q st t0 d resp hq hc hfail
    refine ⟨hres, hcache, fun t0x dx respx => ?_⟩
    obtain ⟨hreq, -, -⟩ := geocode_miss_spec q (geocodeNominatim q st t0 d resp).state
      t0x dx respx hq (by rw [hcache]; exact hc)
    rw [hreq]
    rfl

/-- Witness for C5, exercising all three conjuncts at concrete inputs:
a hit on a one-entry cache, a successful miss followed by a hit, and a
failed miss followed by a fresh request. -/
theorem C5_witness :
    geocodeNominatim "Roma" ⟨[("Roma", ⟨41, 12, "x"⟩)], 0⟩ 5000 300 .notOk =
      ⟨some ⟨41, 12, "x"⟩, ⟨[("Roma", ⟨41, 12, "x"⟩)], 0⟩, none, []⟩ ∧
    ((geocodeNominatim "Roma" ⟨[], 0⟩ 5000 300
        (.ok [⟨some 41, some 12, "x"⟩])).request.isSome = true ∧
      (geocodeNominatim "Roma" ⟨[], 0⟩ 5000 300
          (.ok [⟨some 41, some 12, "x"⟩])).result = some ⟨41, 12, "x"⟩ ∧
      geocodeNominatim "Roma"
          (geocodeNominatim "Roma" ⟨[], 0⟩ 5000 300
            (.ok [⟨some 41, some 12, "x"⟩])).state 9000 0 .notOk =
        ⟨some ⟨41, 12, "x"⟩,
         (geocodeNominatim "Roma" ⟨[], 0⟩ 5000 300
           (.ok [⟨some 41, some 12, "x"⟩])).state, none, []⟩) ∧
    ((geocodeNominatim "Roma" ⟨[], 0⟩ 5000 300 .notOk).result = none ∧
      (geocodeNominatim "Roma" ⟨[], 0⟩ 5000 300 .notOk).state.cache = [] ∧
      (geocodeNominatim "Roma"
          (geocodeNominatim "Roma" ⟨[], 0⟩ 5000 300 .notOk).state 9000 0
          .notOk).request.isSome = true) := by
  obtain ⟨hA, hB, hC⟩ := C5_cache_success_only
  refine ⟨hA "Roma" ⟨[("Roma", ⟨41, 12, "x"⟩)], 0⟩ 5000 300 .notOk ⟨41, 12, "x"⟩
      (by decide) rfl, ?_, ?_⟩
  · obtain ⟨h1, h2, h3⟩ := hB "Roma" ⟨[], 0⟩ 5000 300 ⟨some 41, some 12, "x"⟩ [] 41 12
      (by decide) rfl rfl rfl
    exact ⟨h1, h2, h3 9000 0 .notOk⟩
  · obtain ⟨h1, h2, h3⟩ := hC "Roma" ⟨[], 0⟩ 5000 300 .notOk (by decide) rfl (Or.inl rfl)
    exact ⟨h1, h2, h3 9000 0 .notOk⟩


/-- C2: after every successful load the working set is pairwise good:
ISO dates ascend, and for two records with the same ISO date a record
whose activity kind is not "Trip" never precedes one whose kind is
"Trip". -/
theorem C2_working_set_sorted {fetchOk : Bool} {text : String} {rs : List TripRecord}
    (h : loadPure fetchOk text = .ok rs) :
    rs.Pairwise goodPair := by
  obtain ⟨-, -, -, hrs⟩ := loadPure_ok_elim h
  rw [hrs]
  exact jsSort_pairwise _

/-- A record as produced by the sample row `1/1/2024,Trip` under the
header `data,tipo`. -/
def sampleTrip : TripRecord :=
  { inc := "", days := "", date := "1/1/2024", activity := "Trip", from_ := "", to_ := "",
    place := "", km := "", lodging := "", status := "", cost := "", notes := "",
    address := "", link := "", dateISO := "2024-01-01", kmN := 0, costN := 0,
    city := "", addr := "" }

/-- The matching `Notte` record of the C2 sample load. -/
def sampleNotte : TripRecord :=
  { sampleTrip with activity := "Notte" }

/-- Witness for C2: loading a CSV whose rows are `Notte` then `Trip` on
the same date yields the `Trip` record first, and the output satisfies
the pairwise ordering property. -/
theorem C2_witness :
    loadPure true "data,tipo\n1/1/2024,Notte\n1/1/2024,Trip" =
      .ok [sampleTrip, sampleNotte] ∧
    List.Pairwise goodPair [sampleTrip, sampleNotte] :=
  ⟨by rfl,
   @C2_working_set_sorted true "data,tipo\n1/1/2024,Notte\n1/1/2024,Trip"
     [sampleTrip, sampleNotte] (by rfl)⟩

/-- C3: header resolution. For every header row and canonical field,
the resolver yields `-1` exactly when no column's normalized text is
among the field's normalized aliases; a non-negative result is the
index of the leftmost matching column; and no column index is ever
resolved by two distinct canonical fields (the fourteen normalized
alias sets are pairwise disjoint), so a later field never also
resolves to an earlier field's column. -/
theorem C3_header_resolution (header : List String) (f g : CanonField) :
    (buildHeaderIndex header f = -1 ↔ ∀ h ∈ header, keyifyHeader h ∉ aliasKeys f) ∧
    (∀ i : ℕ, buildHeaderIndex header f = (i : Int) →
      i < header.length ∧ keyifyHeader (header.getD i "") ∈ aliasKeys f ∧
        ∀ j < i, keyifyHeader (header.getD j "") ∉ aliasKeys f) ∧
    (∀ i : ℕ, buildHeaderIndex header f = (i : Int) →
      buildHeaderIndex header g = (i : Int) → f = g) := by
  refine ⟨buildHeaderIndex_neg_iff header f,
    fun i hi => buildHeaderIndex_some_spec header f i hi, ?_⟩
  intro i hf hg
  by_contra hne
  obtain ⟨-, hmf, -⟩ := buildHeaderIndex_some_spec header f i hf
  obtain ⟨-, hmg, -⟩ := buildHeaderIndex_some_spec header g i hg
  exact aliasKeys_disjoint hne hmf hmg

/-- Witness for C3 on the concrete header `["Data", "Tipo"]`: the date
field resolves to column 0, the leftmost (and only) matching column. -/
theorem C3_witness :
    buildHeaderIndex ["Data", "Tipo"] .date = ((0 : ℕ) : Int) ∧
    ((0 : ℕ) < (["Data", "Tipo"] : List String).length ∧
      keyifyHeader ((["Data", "Tipo"] : List String).getD 0 "") ∈ aliasKeys .date ∧
      ∀ j < (0 : ℕ),
        keyifyHeader ((["Data", "Tipo"] : List String).getD j "") ∉ aliasKeys .date) :=
  ⟨by decide,
   (C3_header_resolution ["Data", "Tipo"] .date .activity).2.1 0 (by decide)⟩

/-- C6: a fatally failing load (transport error / non-success response,
empty or unparsable tabular input, or missing mandatory date column)
throws before any record is produced, and the previously loaded record
set is left unchanged. -/
theorem C6_failed_load_preserves_rows (prev : List TripRecord) (fetchOk : Bool)
    (text : String)
    (h : fetchOk = false ∨ (parseCSV text).length = 0 ∨
      buildHeaderIndex ((parseCSV text).headI) .date < 0) :
    (∃ e, loadPure fetchOk text = .error e) ∧ loadState prev fetchOk text = prev := by
  obtain ⟨e, he⟩ := loadPure_error_cases h
  exact ⟨⟨e, he⟩, loadPure_error_state prev he⟩

/-- Witness for C6: a failed fetch leaves a previously loaded one-record
working set untouched. -/
theorem C6_witness :
    (∃ e, loadPure false "x" = .error e) ∧
    loadState [sampleTrip] false "x" = [sampleTrip] :=
  C6_failed_load_preserves_rows [sampleTrip] false "x" (Or.inl rfl)

/-- C7: date normalization. Text of the exact shape day/month/4-digit
year (with `/` separators) normalizes to zero-padded ISO text — in
particular "5/3/2024" to "2024-03-05" — text of any other shape (such
as "2024-03-05") normalizes to the empty string, and every record of a
loaded working set has a non-empty derived ISO date equal to `toISO`
of its date cell, i.e. rows whose date text does not match the shape
are excluded. -/
theorem C7_date_normalization :
    (∀ d m y : List Char, 1 ≤ d.length → d.length ≤ 2 → d.all Char.isDigit = true →
      1 ≤ m.length → m.length ≤ 2 → m.all Char.isDigit = true →
      y.length = 4 → y.all Char.isDigit = true →
      toISO ⟨d ++ ('/' :: (m ++ ('/' :: y)))⟩ = ⟨y ++ '-' :: pad2 m ++ '-' :: pad2 d⟩) ∧
    toISO "5/3/2024" = "2024-03-05" ∧
    toISO "2024-03-05" = "" ∧
    (∀ (fetchOk : Bool) (text : String) (rs : List TripRecord),
      loadPure fetchOk text = .ok rs →
      ∀ r ∈ rs, r.dateISO = toISO r.date ∧ r.dateISO ≠ "") :=
  ⟨fun d m y h1 h2 h3 h4 h5 h6 h7 h8 => toISO_of_shape d m y h1 h2 h3 h4 h5 h6 h7 h8,
   by decide, by decide, fun _ _ _ h => loadPure_ok_mem h⟩

/-- The record produced by the sample row `5/3/2024` under the header
`data`. -/
def sampleRec53 : TripRecord :=
  { sampleTrip with date := "5/3/2024", activity := "", dateISO := "2024-03-05" }

/-- Witness for C7: the shape theorem at 5/3/2024, and the loaded
record of that row carries ISO date "2024-03-05". -/
theorem C7_witness :
    toISO ⟨['5'] ++ ('/' :: (['3'] ++ ('/' :: ['2', '0', '2', '4'])))⟩ =
      ⟨['2', '0', '2', '4'] ++ '-' :: pad2 ['3'] ++ '-' :: pad2 ['5']⟩ ∧
    loadPure true "data\n5/3/2024" = .ok [sampleRec53] ∧
    (sampleRec53.dateISO = toISO sampleRec53.date ∧ sampleRec53.dateISO ≠ "") :=
  ⟨C7_date_normalization.1 ['5'] ['3'] ['2', '0', '2', '4'] (by decide) (by decide)
      (by decide) (by decide) (by decide) (by decide) (by decide) (by decide),
   by rfl,
   C7_date_normalization.2.2.2 true "data\n5/3/2024" [sampleRec53] (by rfl) sampleRec53
     (by simp)⟩

/-- The record produced by the out-of-range sample row `99/99/2024`. -/
def sampleRec99 : TripRecord :=
  { sampleTrip with date := "99/99/2024", activity := "", dateISO := "2024-99-99" }

/-- C10: `toISO` performs no calendar-range validation — "99/99/2024"
matches the digit shape and yields "2024-99-99", and a load containing
that row retains it in the working set with the out-of-range ISO
date. -/
theorem C10_no_range_validation :
    toISO "99/99/2024" = "2024-99-99" ∧
    loadPure true "data\n99/99/2024" = .ok [sampleRec99] ∧
    sampleRec99.dateISO = "2024-99-99" :=
  ⟨by decide, by rfl, rfl⟩


theorem mem_replaceFirstComma {c : Char} :
    ∀ {cs : List Char}, c ∈ replaceFirstComma cs → c ∈ cs ∨ c = '.' := by
  intro cs
  induction cs with
  | nil => intro h; simp [replaceFirstComma] at h
  | cons a rest ih =>
    intro h
    rw [replaceFirstComma] at h
    by_cases ha : a = ','
    · rw [if_pos ha] at h
      rcases List.mem_cons.mp h with rfl | h
      · exact Or.inr rfl
      · exact Or.inl (List.mem_cons_of_mem _ h)
    · rw [if_neg ha] at h
      rcases List.mem_cons.mp h with rfl | h
      · exact Or.inl (List.mem_cons_self _ _)
      · rcases ih h with h | h
        · exact Or.inl (List.mem_cons_of_mem _ h)
        · exact Or.inr h

/-- C8 (counterexample): the spec says every character that is not a
digit, comma, period, or LEADING minus sign is stripped; the code's
regex `[^\d,.\-]` keeps a minus sign anywhere.  On "5-3" the spec's
algorithm strips the interior minus and parses 53, while the code
keeps it, `Number("5-3")` is NaN, and the result is 0. -/
theorem C8_counterexample :
    safeNum "5-3" = 0 ∧ safeNumSpec "5-3" = 53 ∧ (0 : ℚ) ≠ 53 :=
  ⟨rfl, by rfl, by norm_num⟩

/-- C8 (amended): numeric parsing strips every character that is not a
digit, comma, period, or minus sign (a minus sign is kept wherever it
appears), replaces the first comma with a period, and yields zero
whenever the remainder does not parse as a decimal number; "120 km"
yields 120, "abc" yields 0, "1,5" yields 3/2, and "5-3" (interior
minus kept, so NaN) yields 0. -/
theorem C8_amended_numeric_parsing :
    safeNum "120 km" = 120 ∧ safeNum "abc" = 0 ∧ safeNum "1,5" = 3 / 2 ∧
    safeNum "5-3" = 0 ∧
    (∀ s : String, jsNumber (numClean s) = none → safeNum s = 0) ∧
    (∀ s : String, ∀ c ∈ numClean s,
      c.isDigit = true ∨ c = ',' ∨ c = '.' ∨ c = '-') := by
  refine ⟨by rfl, by rfl, ?_, by rfl, ?_, ?_⟩
  · rw [show safeNum "1,5" = 1 + (5 : ℚ) / 10 from rfl]
    norm_num
  · intro s h
    unfold safeNum
    rw [h]
    rfl
  · intro s c hc
    rcases mem_replaceFirstComma hc with hc | rfl
    · have hk := List.of_mem_filter hc
      revert hk
      unfold numKeep
      simp only [Bool.or_eq_true, decide_eq_true_eq]
      tauto
    · tauto

/-- Witness for the amended C8: "7.8.9" cleans to an unparsable body
and defaults to zero, and a character of a cleaned string is in the
kept class. -/
theorem C8_amended_witness :
    jsNumber (numClean "7.8.9") = none ∧ safeNum "7.8.9" = 0 ∧
    '1' ∈ numClean "1,5" ∧
    ('1'.isDigit = true ∨ '1' = ',' ∨ '1' = '.' ∨ '1' = '-') :=
  ⟨rfl, C8_amended_numeric_parsing.2.2.2.2.1 "7.8.9" rfl, by decide,
   C8_amended_numeric_parsing.2.2.2.2.2 "1,5" '1' (by decide)⟩

theorem norm_ne_data {s : String} (hs : norm s ≠ "") : s.data ≠ [] := by
  intro h
  apply hs
  unfold norm
  rw [h]
  rfl

/-- C9: a double-quoted field tokenizes to exactly one field whose
content — embedded commas, newlines, and doubled quotes (one literal
quote each) — is preserved verbatim.  The hypothesis excludes
whitespace-only content, for which the tokenizer's blank-row rule
drops the whole (single-field) row. -/
theorem C9_quoted_field (s : String) (hs : norm s ≠ "") :
    parseCSV (csvQuote s) = [[s]] := by
  have hd := norm_ne_data hs
  show parseCSVAux ('"' :: (escQuote s.data ++ ['"'])) false [] [] [] = [[s]]
  rw [parseCSVAux.eq_4, parseCSVAux_quoted s.data [] [] [], List.nil_append,
    parseCSVAux.eq_1,
    if_pos (Or.inl (show s.data.length ≠ 0 by
      simp only [ne_eq, List.length_eq_zero]
      exact hd))]
  unfold pushRow rowNonBlank
  rw [List.nil_append, if_pos]
  · rfl
  · simpa using hs

/-- Witness for C9: a field containing a comma, a newline and a doubled
quote round-trips through the tokenizer as one field. -/
theorem C9_witness :
    norm "a,\"b\nc" ≠ "" ∧ parseCSV (csvQuote "a,\"b\nc") = [["a,\"b\nc"]] :=
  ⟨by decide, C9_quoted_field "a,\"b\nc" (by decide)⟩


end Triplan
